import Mathlib

/-!
Verification of the merger bot's core mechanisms as a shallow embedding:
the single-flight job queue (`Queue.appendJob` and its drain loop) and the
GitLab API request layer (`sendRawRequest` retry loop,
`validateResponseStatus`, and the response shape checks of
`sendRequestWithSingleResponse` / `sendRequestWithMultiResponse`).
-/

/-- A queued asynchronous unit of work.  In the source a `Job` is a thunk
returning a promise; here a job body is identified by `id`, and `fails`
records whether awaiting the body throws. -/
structure Job where
  id : Nat
  fails : Bool
deriving DecidableEq, Repr

/-- The pending-job mapping `this.jobs`: a JS object with string keys, which
iterates (for non-integer-like keys) in insertion order; assigning to an
existing key keeps its position, deleting and later re-adding moves the key to
the end.  Modelled as an insertion-ordered association list. -/
abbrev JobMap := List (String × Job)

/-- `this.jobs[jobId] = job` (Queue source, `appendJob` body): replace in
place when the key is present, append at the end otherwise. -/
def insertJob (m : JobMap) (k : String) (j : Job) : JobMap :=
  if m.any (fun p => p.1 == k) then
    m.map (fun p => if p.1 = k then (k, j) else p)
  else
    m ++ [(k, j)]

/-- `delete this.jobs[jobIds[0]]` in the drain loop. -/
def deleteJob (m : JobMap) (k : String) : JobMap :=
  m.filter (fun p => p.1 != k)

/-- Appends performed by callers of `appendJob` while a job body is being
awaited, applied in arrival order. -/
def applyAppends (m : JobMap) (apps : List (String × Job)) : JobMap :=
  apps.foldl (fun acc p => insertJob acc p.1 p.2) m

/-- Settlement state of the drain-cycle promise. -/
inductive PState where
  | pending
  | resolvedP
  | rejectedP
deriving DecidableEq, Repr

/-- `resolve()`: a promise settles at most once. -/
def resolve1 : PState → PState
  | .pending => .resolvedP
  | s => s

/-- `reject(e)` in the catch branch: a promise settles at most once. -/
def reject1 : PState → PState
  | .pending => .rejectedP
  | s => s

/-- `.then(this.onEmptyQueue)` installs a single fulfillment handler: the
completion callback runs iff the drain-cycle promise fulfilled. -/
def callbackFires (ps : PState) : Bool := ps == .resolvedP

/-- One drain cycle of the `while (true)` loop inside `appendJob`, with
`fuel` bounding the number of iterations.  `sched` lists, for each successive
job execution, the `appendJob` calls that arrive while that body is awaited
(`await currentJob()` is the only suspension point of the loop).  Returns the
executed `(key, job)` trace in order together with the final promise state, or
`none` if `fuel` ran out.  Mirroring the source, each iteration reads the
first key of the mapping, reads the job currently stored there, awaits it
(rejecting the cycle promise when it throws), lets the scheduled appends land
meanwhile, and only then deletes the first key. -/
def drainRun (fuel : Nat) (m : JobMap) (sched : List (List (String × Job)))
    (ps : PState) : Option (JobMap × PState) :=
  match fuel with
  | 0 => none
  | fuel + 1 =>
    match m with
    | [] => some ([], resolve1 ps)
    | (k, j) :: rest =>
      let psAfter := if j.fails then reject1 ps else ps
      let afterAppends := applyAppends ((k, j) :: rest) (sched.headD [])
      let remaining := deleteJob afterAppends k
      match drainRun fuel remaining sched.tail psAfter with
      | none => none
      | some (trace, psF) => some ((k, j) :: trace, psF)

/-- A queue instance: the pending mapping plus whether the drain promise
exists (`this.promise !== undefined`). -/
structure QueueState where
  jobs : JobMap
  active : Bool
deriving DecidableEq, Repr

/-- `appendJob`: store the job under its key; a drain loop is started when
none is active (the mapping transition is all the claims need). -/
def appendJob (s : QueueState) (k : String) (j : Job) : QueueState :=
  { jobs := insertJob s.jobs k j, active := true }

/-- Distinctness of the keys of the mapping: an invariant of JS objects,
preserved by `insertJob` and `deleteJob`. -/
abbrev keysNodup (m : JobMap) : Prop := (m.map Prod.fst).Nodup

/-- Effect of awaiting one job body on the drain-cycle promise. -/
def jobStep (ps : PState) (p : String × Job) : PState :=
  if p.2.fails then reject1 ps else ps

/-- Promise state after executing a whole trace and resolving at the end. -/
def settle (ps : PState) (m : JobMap) : PState :=
  resolve1 (m.foldl jobStep ps)

/-- An error thrown by `fetch`: whether it is a `FetchError`, and its
`type` field. -/
structure ThrownError where
  isFetchError : Bool
  etype : String
deriving DecidableEq, Repr

/-- The retry condition on a thrown error:
`e instanceof FetchError && [ 'system', 'request-timeout'].includes(e.type)`. -/
def retryableError (e : ThrownError) : Bool :=
  e.isFetchError && (e.etype == "system" || e.etype == "request-timeout")

/-- Outcome of one `fetch` attempt, supplied by the environment: either a
response with a status code, or a thrown error. -/
inductive AttemptOutcome where
  | ok (status : Nat)
  | thrown (e : ThrownError)
deriving DecidableEq, Repr

/-- Result of `sendRawRequest`: a returned response (by status), the
`Unexpected status code ... after ... retries` error, or a propagated
transport error. -/
inductive RawResult where
  | returned (status : Nat)
  | serverError (status : Nat) (attempts : Nat)
  | raised (e : ThrownError)
deriving DecidableEq, Repr

def numberOfRequestRetries : Nat := 20

def sleepTimeout : Nat := 10000

/-- The `while (true)` retry loop of `sendRawRequest`, entered with
`attemptNo` the value of `retryCounter` after the increment at the top of the
iteration.  `att n` is the outcome of the n-th `fetch` call (1-indexed).
Returns the result, the number of attempts made from this iteration on, and
the list of backoff sleeps performed. -/
def sendLoop (att : Nat → AttemptOutcome) (attemptNo : Nat) :
    RawResult × Nat × List Nat :=
  match att attemptNo with
  | .ok status =>
    if 500 ≤ status then
      if numberOfRequestRetries ≤ attemptNo then
        (.serverError status numberOfRequestRetries, 1, [])
      else
        let r := sendLoop att (attemptNo + 1)
        (r.1, r.2.1 + 1, sleepTimeout :: r.2.2)
    else
      (.returned status, 1, [])
  | .thrown e =>
    if attemptNo < numberOfRequestRetries ∧ retryableError e = true then
      let r := sendLoop att (attemptNo + 1)
      (r.1, r.2.1 + 1, sleepTimeout :: r.2.2)
    else
      (.raised e, 1, [])
termination_by numberOfRequestRetries - attemptNo
decreasing_by
  all_goals omega

/-- `sendRawRequest` enters the loop with `retryCounter` incremented to 1. -/
def sendRawRequest (att : Nat → AttemptOutcome) : RawResult × Nat × List Nat :=
  sendLoop att 1

/-- An attempt outcome that the loop treats as transient: a response with a
5xx status, or a thrown retryable (system / request-timeout) fetch error. -/
def isTransientOrServerError : AttemptOutcome → Bool
  | .ok status => decide (500 ≤ status)
  | .thrown e => retryableError e

/-- Errors thrown past `sendRawRequest` by the response-processing layer. -/
inductive ApiError where
  | unauthorized
  | forbidden
  | unexpectedStatus (status : Nat)
  | invalidResponse
deriving DecidableEq, Repr

/-- `validateResponseStatus`, with `none` for the fall-through (success) and
`some e` for a thrown error, in the source's check order: 401, then 403, then
the `status < 200 || status >= 300` range check. -/
def validateResponseStatus (status : Nat) : Option ApiError :=
  if status = 401 then some .unauthorized
  else if status = 403 then some .forbidden
  else if status < 200 ∨ 300 ≤ status then some (.unexpectedStatus status)
  else none

/-- Modelled from the spec wording of the ResponseOutcome classification, for
the refinement claim about `validateResponseStatus`: 401 ↦
AuthenticationFailure (`unauthorized`), 403 ↦ AuthorizationFailure
(`forbidden`), a status in [200, 300) ↦ Success (`none`), and every other
status ↦ GenericFailure carrying the status (`unexpectedStatus`). -/
def classifySpec (status : Nat) : Option ApiError :=
  if status = 401 then some .unauthorized
  else if status = 403 then some .forbidden
  else if 200 ≤ status ∧ status < 300 then none
  else some (.unexpectedStatus status)

/-- A decoded JSON response body. -/
inductive Json where
  | obj (fields : List (String × Json))
  | arr (elems : List Json)
  | str (s : String)
  | num (n : Int)
  | bool (b : Bool)
  | null

/-- JS `typeof` on a decoded JSON value: objects, arrays and `null` are all
of type `object`. -/
def jsTypeof : Json → String
  | .obj _ => "object"
  | .arr _ => "object"
  | .null => "object"
  | .str _ => "string"
  | .num _ => "number"
  | .bool _ => "boolean"

/-- JS `data.id` on a decoded JSON value: `none` stands for `undefined`. -/
def getId : Json → Option Json
  | .obj fields => fields.lookup "id"
  | _ => none

/-- Whether the decoded body is a JSON object (a single object in the
spec's vocabulary, which distinguishes objects from sequences). -/
def isJsonObject : Json → Bool
  | .obj _ => true
  | _ => false

/-- `Array.isArray(data)`. -/
def isJsonArray : Json → Bool
  | .arr _ => true
  | _ => false

/-- The continuation of `sendRequestWithSingleResponse` once `sendRawRequest`
has resolved with a response of the given status whose body decodes to
`body`: validate the status first, then apply the shape check
`typeof data !== 'object' && data.id === undefined`. -/
def sendRequestWithSingleResponse (status : Nat) (body : Json) :
    Except ApiError Json :=
  match validateResponseStatus status with
  | some e => .error e
  | none =>
    if (jsTypeof body != "object") && (getId body).isNone then
      .error .invalidResponse
    else
      .ok body

/-- The continuation of `sendRequestWithMultiResponse` once `sendRawRequest`
has resolved: validate the status first, then apply the shape check
`!Array.isArray(data)`. -/
def sendRequestWithMultiResponse (status : Nat) (body : Json) :
    Except ApiError Json :=
  match validateResponseStatus status with
  | some e => .error e
  | none =>
    if !(isJsonArray body) then
      .error .invalidResponse
    else
      .ok body

theorem keysNodup_nil : keysNodup [] := List.nodup_nil

theorem drainRun_cons (fuel : Nat) (k : String) (j : Job) (rest : JobMap)
    (sched : List (List (String × Job))) (ps : PState) :
    drainRun (fuel + 1) ((k, j) :: rest) sched ps =
      match drainRun fuel
          (deleteJob (applyAppends ((k, j) :: rest) (sched.headD [])) k)
          sched.tail (if j.fails then reject1 ps else ps) with
      | none => none
      | some (trace, psF) => some ((k, j) :: trace, psF) := rfl

theorem keysNodup_cons_not_mem {k : String} {j : Job} {rest : JobMap}
    (h : keysNodup ((k, j) :: rest)) : ∀ p ∈ rest, p.1 ≠ k := by
  intro p hp hpk
  have hmap : keysNodup ((k, j) :: rest) ↔
      k ∉ rest.map Prod.fst ∧ (rest.map Prod.fst).Nodup := by
    simp [keysNodup]
  exact (hmap.mp h).1 (hpk ▸ List.mem_map_of_mem Prod.fst hp)

theorem keysNodup_of_cons {p : String × Job} {rest : JobMap}
    (h : keysNodup (p :: rest)) : keysNodup rest := by
  simp only [keysNodup, List.map_cons, List.nodup_cons] at h
  exact h.2

theorem deleteJob_cons {k : String} {j : Job} {rest : JobMap}
    (h : keysNodup ((k, j) :: rest)) : deleteJob ((k, j) :: rest) k = rest := by
  have hrest := keysNodup_cons_not_mem h
  unfold deleteJob
  rw [List.filter_cons]
  simp only [bne_self_eq_false, Bool.false_eq_true, if_false]
  exact List.filter_eq_self.mpr (fun p hp => by
    simpa [bne_iff_ne] using hrest p hp)

theorem applyAppends_nil (m : JobMap) : applyAppends m [] = m := rfl

theorem drainRun_no_appends :
    ∀ m : JobMap, keysNodup m → ∀ fuel, m.length < fuel → ∀ ps,
      drainRun fuel m [] ps = some (m, settle ps m) := by
  intro m
  induction m with
  | nil =>
    intro _ fuel hf ps
    cases fuel with
    | zero => omega
    | succ f => simp [drainRun, settle]
  | cons p rest ih =>
    intro h fuel hf ps
    cases fuel with
    | zero => simp at hf
    | succ f =>
      obtain ⟨k, j⟩ := p
      have hdel : deleteJob ((k, j) :: rest) k = rest := deleteJob_cons h
      have hrec := ih (keysNodup_of_cons h) f (by simp at hf; omega)
        (if j.fails then reject1 ps else ps)
      simp only [drainRun, List.headD_nil, List.tail_nil, applyAppends_nil,
        hdel, hrec]
      simp [settle, jobStep]

theorem foldl_jobStep_rejected (m : JobMap) :
    m.foldl jobStep .rejectedP = .rejectedP := by
  induction m with
  | nil => rfl
  | cons p rest ih => simp [jobStep, reject1, ih]

theorem foldl_jobStep_pending (m : JobMap) :
    m.foldl jobStep .pending =
      if m.any (fun p => p.2.fails) then .rejectedP else .pending := by
  induction m with
  | nil => simp
  | cons p rest ih =>
    rw [List.foldl_cons, List.any_cons]
    by_cases hp : p.2.fails
    · simp [jobStep, hp, reject1, foldl_jobStep_rejected]
    · rw [Bool.not_eq_true] at hp
      rw [hp, Bool.false_or]
      simp [jobStep, hp, ih]

theorem settle_pending_eq (m : JobMap) :
    settle .pending m = if m.any (fun p => p.2.fails) then .rejectedP
      else .resolvedP := by
  unfold settle
  rw [foldl_jobStep_pending]
  by_cases hm : m.any (fun p => p.2.fails) <;> simp [hm, resolve1]

theorem map_eq_self_of_forall {α : Type} {l : List α} {f : α → α}
    (h : ∀ a ∈ l, f a = a) : l.map f = l := by
  induction l with
  | nil => rfl
  | cons a l ih =>
    rw [List.map_cons, h a (List.mem_cons_self a l),
      ih (fun b hb => h b (List.mem_cons_of_mem a hb))]

theorem not_hasKey_iff {m : JobMap} {k : String} :
    ¬ (m.any (fun p => p.1 == k)) = true ↔ ∀ p ∈ m, p.1 ≠ k := by
  rw [List.any_eq_true]
  constructor
  · intro h p hp hpk
    exact h ⟨p, hp, by simpa using hpk⟩
  · rintro h ⟨p, hp, hpk⟩
    exact h p hp (by simpa using hpk)

theorem mem_insertJob {m : JobMap} {k : String} {j : Job} {p : String × Job}
    (hp : p ∈ insertJob m k j) : p = (k, j) ∨ (p ∈ m ∧ p.1 ≠ k) := by
  unfold insertJob at hp
  by_cases hk : m.any (fun q => q.1 == k)
  · rw [if_pos hk] at hp
    obtain ⟨q, hq, hfq⟩ := List.mem_map.mp hp
    by_cases hq1 : q.1 = k
    · left
      rw [if_pos hq1] at hfq
      exact hfq.symm
    · right
      rw [if_neg hq1] at hfq
      subst hfq
      exact ⟨hq, hq1⟩
  · rw [if_neg hk] at hp
    rcases List.mem_append.mp hp with hpm | hpk
    · exact Or.inr ⟨hpm, not_hasKey_iff.mp hk p hpm⟩
    · left
      simpa using hpk

theorem mem_insertJob_self (m : JobMap) (k : String) (j : Job) :
    (k, j) ∈ insertJob m k j := by
  unfold insertJob
  by_cases hk : m.any (fun q => q.1 == k)
  · rw [if_pos hk]
    rw [List.any_eq_true] at hk
    obtain ⟨q, hq, hq1⟩ := hk
    refine List.mem_map.mpr ⟨q, hq, ?_⟩
    rw [if_pos (by simpa using hq1)]
  · rw [if_neg hk]
    simp

theorem insertJob_insertJob (m : JobMap) (k : String) (j1 j2 : Job) :
    insertJob (insertJob m k j1) k j2 = insertJob m k j2 := by
  unfold insertJob
  by_cases hk : m.any (fun q => q.1 == k)
  · rw [if_pos hk]
    have hany : (m.map (fun p => if p.1 = k then (k, j1) else p)).any
        (fun q => q.1 == k) = true := by
      rw [List.any_eq_true] at hk ⊢
      obtain ⟨q, hq, hq1⟩ := hk
      exact ⟨(k, j1), List.mem_map.mpr ⟨q, hq, by rw [if_pos (by simpa using hq1)]⟩,
        by simp⟩
    rw [if_pos hany, if_pos hk, List.map_map]
    refine List.map_congr_left (fun p _ => ?_)
    by_cases hp : p.1 = k
    · simp [hp]
    · simp [hp]
  · rw [if_neg hk]
    have hany : (m ++ [(k, j1)]).any (fun q => q.1 == k) = true := by
      rw [List.any_eq_true]
      exact ⟨(k, j1), by simp, by simp⟩
    rw [if_pos hany, if_neg hk, List.map_append]
    have hmap : m.map (fun p => if p.1 = k then (k, j2) else p) = m :=
      map_eq_self_of_forall (fun p hp => if_neg (not_hasKey_iff.mp hk p hp))
    rw [hmap]
    simp

theorem keysNodup_insertJob {m : JobMap} (k : String) (j : Job)
    (h : keysNodup m) : keysNodup (insertJob m k j) := by
  unfold insertJob
  by_cases hk : m.any (fun q => q.1 == k)
  · rw [if_pos hk]
    have heq : (m.map (fun p => if p.1 = k then (k, j) else p)).map Prod.fst =
        m.map Prod.fst := by
      rw [List.map_map]
      refine List.map_congr_left (fun p _ => ?_)
      by_cases hp : p.1 = k
      · simp [hp]
      · simp [hp]
    unfold keysNodup
    rw [heq]
    exact h
  · rw [if_neg hk]
    unfold keysNodup
    rw [List.map_append]
    simp only [List.map_cons, List.map_nil]
    rw [List.nodup_append]
    refine ⟨h, List.nodup_singleton k, ?_⟩
    intro a ha hb
    simp only [List.mem_singleton] at hb
    subst hb
    obtain ⟨q, hq, hq1⟩ := List.mem_map.mp ha
    exact not_hasKey_iff.mp hk q hq hq1

theorem filter_key_of_mem {m : JobMap} {k : String} {j : Job}
    (hnd : keysNodup m) (hmem : (k, j) ∈ m) :
    m.filter (fun p => p.1 == k) = [(k, j)] := by
  induction m with
  | nil => cases hmem
  | cons q rest ih =>
    rw [List.filter_cons]
    rcases List.mem_cons.mp hmem with hq | hrest
    · subst hq
      simp only [beq_self_eq_true, if_true]
      have : rest.filter (fun p => p.1 == k) = [] := by
        rw [List.filter_eq_nil_iff]
        intro p hp
        simpa [bne_iff_ne] using keysNodup_cons_not_mem hnd p hp
      rw [this]
    · have hq1 : q.1 ≠ k := by
        intro hc
        have := keysNodup_cons_not_mem hnd (k, j) hrest
        simp at this
        exact this hc.symm
      simp only [beq_iff_eq, hq1, if_false]
      exact ih (keysNodup_of_cons hnd) hrest

theorem sendLoop_ok (att : Nat → AttemptOutcome) (i st : Nat)
    (h : att i = .ok st) :
    sendLoop att i =
      if 500 ≤ st then
        if numberOfRequestRetries ≤ i then
          (.serverError st numberOfRequestRetries, 1, [])
        else
          ((sendLoop att (i + 1)).1, (sendLoop att (i + 1)).2.1 + 1,
            sleepTimeout :: (sendLoop att (i + 1)).2.2)
      else
        (.returned st, 1, []) := by
  conv_lhs => unfold sendLoop
  rw [h]

theorem sendLoop_thrown (att : Nat → AttemptOutcome) (i : Nat)
    (e : ThrownError) (h : att i = .thrown e) :
    sendLoop att i =
      if i < numberOfRequestRetries ∧ retryableError e = true then
        ((sendLoop att (i + 1)).1, (sendLoop att (i + 1)).2.1 + 1,
          sleepTimeout :: (sendLoop att (i + 1)).2.2)
      else
        (.raised e, 1, []) := by
  conv_lhs => unfold sendLoop
  rw [h]

theorem sendLoop_all_transient (att : Nat → AttemptOutcome) :
    ∀ d i, 0 < i → i + d = numberOfRequestRetries →
      (∀ n, i ≤ n → n ≤ numberOfRequestRetries →
        isTransientOrServerError (att n) = true) →
      (∀ s, (sendLoop att i).1 ≠ .returned s) ∧
      (sendLoop att i).2.1 = d + 1 ∧
      (sendLoop att i).2.2 = List.replicate d sleepTimeout := by
  intro d
  induction d with
  | zero =>
    intro i hi hieq hbad
    have hb := hbad i le_rfl (by omega)
    cases hatt : att i with
    | ok st =>
      rw [hatt] at hb
      have h5 : 500 ≤ st := by simpa [isTransientOrServerError] using hb
      rw [sendLoop_ok att i st hatt, if_pos h5,
        if_pos (by omega : numberOfRequestRetries ≤ i)]
      exact ⟨fun s h => by simp at h, rfl, rfl⟩
    | thrown e =>
      rw [sendLoop_thrown att i e hatt,
        if_neg (by omega : ¬ (i < numberOfRequestRetries ∧
          retryableError e = true))]
      exact ⟨fun s h => by simp at h, rfl, rfl⟩
  | succ d ih =>
    intro i hi hieq hbad
    have hb := hbad i le_rfl (by omega)
    obtain ⟨h1, h2, h3⟩ := ih (i + 1) (by omega) (by omega)
      (fun n hn1 hn2 => hbad n (by omega) hn2)
    cases hatt : att i with
    | ok st =>
      rw [hatt] at hb
      have h5 : 500 ≤ st := by simpa [isTransientOrServerError] using hb
      rw [sendLoop_ok att i st hatt, if_pos h5,
        if_neg (by omega : ¬ numberOfRequestRetries ≤ i)]
      refine ⟨fun s => h1 s, ?_, ?_⟩
      · show (sendLoop att (i + 1)).2.1 + 1 = d + 1 + 1
        rw [h2]
      · show sleepTimeout :: (sendLoop att (i + 1)).2.2 =
          List.replicate (d + 1) sleepTimeout
        rw [h3, List.replicate_succ]
    | thrown e =>
      rw [hatt] at hb
      have hr : retryableError e = true := by
        simpa [isTransientOrServerError] using hb
      rw [sendLoop_thrown att i e hatt, if_pos ⟨by omega, hr⟩]
      refine ⟨fun s => h1 s, ?_, ?_⟩
      · show (sendLoop att (i + 1)).2.1 + 1 = d + 1 + 1
        rw [h2]
      · show sleepTimeout :: (sendLoop att (i + 1)).2.2 =
          List.replicate (d + 1) sleepTimeout
        rw [h3, List.replicate_succ]

theorem sendLoop_all_5xx (att : Nat → AttemptOutcome) :
    ∀ d i, 0 < i → i + d = numberOfRequestRetries →
      (∀ n, i ≤ n → n ≤ numberOfRequestRetries →
        ∃ st, att n = .ok st ∧ 500 ≤ st) →
      ∃ st, att numberOfRequestRetries = .ok st ∧
        (sendLoop att i).1 = .serverError st numberOfRequestRetries := by
  intro d
  induction d with
  | zero =>
    intro i hi hieq hbad
    obtain ⟨st, hatt, h5⟩ := hbad i le_rfl (by omega)
    refine ⟨st, by rw [← hieq, Nat.add_zero]; exact hatt, ?_⟩
    rw [sendLoop_ok att i st hatt, if_pos h5,
      if_pos (by omega : numberOfRequestRetries ≤ i)]
  | succ d ih =>
    intro i hi hieq hbad
    obtain ⟨st, hatt, h5⟩ := hbad i le_rfl (by omega)
    obtain ⟨st20, hatt20, hres⟩ := ih (i + 1) (by omega) (by omega)
      (fun n hn1 hn2 => hbad n (by omega) hn2)
    refine ⟨st20, hatt20, ?_⟩
    rw [sendLoop_ok att i st hatt, if_pos h5,
      if_neg (by omega : ¬ numberOfRequestRetries ≤ i)]
    exact hres

theorem sendLoop_prefix_5xx (att : Nat → AttemptOutcome) (N s : Nat)
    (hN : N < numberOfRequestRetries) (hs : att (N + 1) = .ok s)
    (hlt : s < 500) :
    ∀ d i, 0 < i → i + d = N + 1 →
      (∀ n, i ≤ n → n ≤ N → ∃ st, att n = .ok st ∧ 500 ≤ st) →
      sendLoop att i = (.returned s, d + 1, List.replicate d sleepTimeout) := by
  intro d
  induction d with
  | zero =>
    intro i hi hieq hbad
    have hii : i = N + 1 := by omega
    subst hii
    rw [sendLoop_ok att (N + 1) s hs, if_neg (by omega : ¬ 500 ≤ s)]
    rfl
  | succ d ih =>
    intro i hi hieq hbad
    obtain ⟨st, hatt, h5⟩ := hbad i le_rfl (by omega)
    have hrec := ih (i + 1) (by omega) (by omega)
      (fun n hn1 hn2 => hbad n (by omega) hn2)
    rw [sendLoop_ok att i st hatt, if_pos h5,
      if_neg (by omega : ¬ numberOfRequestRetries ≤ i), hrec,
      List.replicate_succ]

theorem sendLoop_returned_lt_500 (att : Nat → AttemptOutcome) :
    ∀ d i s, numberOfRequestRetries - i ≤ d →
      (sendLoop att i).1 = .returned s → s < 500 := by
  intro d
  induction d with
  | zero =>
    intro i s hd h
    cases hatt : att i with
    | ok st =>
      rw [sendLoop_ok att i st hatt] at h
      by_cases h5 : 500 ≤ st
      · rw [if_pos h5, if_pos (by omega : numberOfRequestRetries ≤ i)] at h
        simp at h
      · rw [if_neg h5] at h
        simp at h
        omega
    | thrown e =>
      rw [sendLoop_thrown att i e hatt,
        if_neg (by omega : ¬ (i < numberOfRequestRetries ∧
          retryableError e = true))] at h
      simp at h
  | succ d ih =>
    intro i s hd h
    cases hatt : att i with
    | ok st =>
      rw [sendLoop_ok att i st hatt] at h
      by_cases h5 : 500 ≤ st
      · rw [if_pos h5] at h
        by_cases hle : numberOfRequestRetries ≤ i
        · rw [if_pos hle] at h
          simp at h
        · rw [if_neg hle] at h
          exact ih (i + 1) s (by omega) h
      · rw [if_neg h5] at h
        simp at h
        omega
    | thrown e =>
      rw [sendLoop_thrown att i e hatt] at h
      by_cases hc : i < numberOfRequestRetries ∧ retryableError e = true
      · rw [if_pos hc] at h
        exact ih (i + 1) s (by omega) h
      · rw [if_neg hc] at h
        simp at h

theorem sendRequestWithSingleResponse_none (status : Nat) (body : Json)
    (h : validateResponseStatus status = none) :
    sendRequestWithSingleResponse status body =
      if (jsTypeof body != "object") && (getId body).isNone then
        .error .invalidResponse
      else
        .ok body := by
  unfold sendRequestWithSingleResponse
  rw [h]

theorem sendRequestWithSingleResponse_some (status : Nat) (body : Json)
    (e : ApiError) (h : validateResponseStatus status = some e) :
    sendRequestWithSingleResponse status body = .error e := by
  unfold sendRequestWithSingleResponse
  rw [h]

theorem sendRequestWithMultiResponse_none (status : Nat) (body : Json)
    (h : validateResponseStatus status = none) :
    sendRequestWithMultiResponse status body =
      if !(isJsonArray body) then .error .invalidResponse else .ok body := by
  unfold sendRequestWithMultiResponse
  rw [h]

theorem sendRequestWithMultiResponse_some (status : Nat) (body : Json)
    (e : ApiError) (h : validateResponseStatus status = some e) :
    sendRequestWithMultiResponse status body = .error e := by
  unfold sendRequestWithMultiResponse
  rw [h]

/-- C1: coalescing before execution — if `appendJob(k, job1)` and then
`appendJob(k, job2)` are called before either body has started executing,
the mapping is exactly as if only `job2` had been appended, and the drain
cycle over the resulting mapping (no further appends) executes exactly one
body under `k`, namely `job2`; the entry `(k, job1)` is never part of the
executed trace. -/
theorem appendJob_coalesces_second_wins (s : QueueState) (k : String)
    (j1 j2 : Job) (hnd : keysNodup s.jobs) (hne : j1 ≠ j2) :
    (appendJob (appendJob s k j1) k j2).jobs = (appendJob s k j2).jobs ∧
    drainRun ((appendJob (appendJob s k j1) k j2).jobs.length + 1)
        (appendJob (appendJob s k j1) k j2).jobs [] .pending =
      some ((appendJob (appendJob s k j1) k j2).jobs,
        settle .pending (appendJob (appendJob s k j1) k j2).jobs) ∧
    ((appendJob (appendJob s k j1) k j2).jobs.filter
        (fun p => p.1 == k)).map Prod.snd = [j2] ∧
    (k, j1) ∉ (appendJob (appendJob s k j1) k j2).jobs := by
  have hcol : (appendJob (appendJob s k j1) k j2).jobs =
      insertJob s.jobs k j2 := insertJob_insertJob s.jobs k j1 j2
  have hnd2 : keysNodup (insertJob s.jobs k j2) := keysNodup_insertJob k j2 hnd
  have hfil : (insertJob s.jobs k j2).filter (fun p => p.1 == k) =
      [(k, j2)] :=
    filter_key_of_mem hnd2 (mem_insertJob_self s.jobs k j2)
  refine ⟨hcol, ?_, ?_, ?_⟩
  · rw [hcol]
    exact drainRun_no_appends _ hnd2 _ (by omega) _
  · rw [hcol, hfil]
    rfl
  · rw [hcol]
    intro hmem
    have hin : (k, j1) ∈ (insertJob s.jobs k j2).filter (fun p => p.1 == k) :=
      List.mem_filter.mpr ⟨hmem, by simp⟩
    rw [hfil] at hin
    simp at hin
    exact hne hin

/-- Witness for the coalescing theorem at a concrete queue: starting empty,
appending bodies 0 then 1 under one key leaves only body 1 to execute. -/
theorem appendJob_coalesces_second_wins_witness :
    ((appendJob (appendJob ⟨[], false⟩ "a" ⟨0, false⟩) "a" ⟨1, false⟩).jobs.filter
        (fun p => p.1 == "a")).map Prod.snd = [⟨1, false⟩] ∧
    ("a", (⟨0, false⟩ : Job)) ∉
      (appendJob (appendJob ⟨[], false⟩ "a" ⟨0, false⟩) "a" ⟨1, false⟩).jobs :=
  ⟨(appendJob_coalesces_second_wins ⟨[], false⟩ "a" ⟨0, false⟩ ⟨1, false⟩
      keysNodup_nil (by decide)).2.2.1,
    (appendJob_coalesces_second_wins ⟨[], false⟩ "a" ⟨0, false⟩ ⟨1, false⟩
      keysNodup_nil (by decide)).2.2.2⟩

/-- C2 as stated is false: a job appended under the key whose job is
currently executing is not retained for a later turn.  The drain loop
deletes the first key after awaiting its body, so the replacement entry that
arrived during the execution is discarded.  Concretely: one pending job
under key a, a new body appended under a during its execution — the trace is
just the old body, the new entry is gone, and the cycle ends. -/
theorem inflight_append_runs_later_cex :
    drainRun 2 [("a", ⟨0, false⟩)] [[("a", ⟨1, false⟩)]] .pending =
      some ([("a", ⟨0, false⟩)], .resolvedP) ∧
    ("a", (⟨1, false⟩ : Job)) ∉ ([("a", ⟨0, false⟩)] : JobMap) := by
  decide

/-- C2 amended: an `appendJob(k, newJob)` arriving while the job stored
under `k` is executing replaces the pending entry, but when the in-flight
body finishes the loop deletes key `k`, discarding `newJob`: the cycle's
trace consists of the old mapping, and a fresh `newJob` body is never
executed; the in-flight execution itself is neither interrupted nor
merged. -/
theorem inflight_append_discarded (k : String) (jOld jNew : Job)
    (rest : JobMap) (hnd : keysNodup ((k, jOld) :: rest)) :
    drainRun (rest.length + 2) ((k, jOld) :: rest) [[(k, jNew)]] .pending =
      some ((k, jOld) :: rest, settle .pending ((k, jOld) :: rest)) ∧
    (jNew ≠ jOld → (∀ p ∈ rest, p.2 ≠ jNew) →
      ∀ p ∈ (k, jOld) :: rest, p.2 ≠ jNew) := by
  constructor
  · have hins : applyAppends ((k, jOld) :: rest) [(k, jNew)] =
        (k, jNew) :: rest := by
      show insertJob ((k, jOld) :: rest) k jNew = (k, jNew) :: rest
      unfold insertJob
      rw [if_pos (by simp : (((k, jOld) :: rest).any
        (fun p => p.1 == k)) = true)]
      rw [List.map_cons, if_pos rfl]
      congr 1
      exact map_eq_self_of_forall (fun p hp =>
        if_neg (keysNodup_cons_not_mem hnd p hp))
    have hnd2 : keysNodup ((k, jNew) :: rest) := by
      simpa [keysNodup] using hnd
    have hdel : deleteJob ((k, jNew) :: rest) k = rest := deleteJob_cons hnd2
    show drainRun (rest.length + 1 + 1) ((k, jOld) :: rest) [[(k, jNew)]]
      .pending = _
    rw [drainRun_cons]
    simp only [List.headD_cons, List.tail_cons, hins, hdel]
    rw [drainRun_no_appends rest (keysNodup_of_cons hnd) (rest.length + 1)
      (by omega)]
    simp [settle, jobStep]
  · intro hne hfresh p hp hpe
    rcases List.mem_cons.mp hp with h | h
    · rw [h] at hpe
      exact hne (by simpa using hpe.symm)
    · exact hfresh p h hpe

/-- Witness for the amended in-flight append theorem at a concrete queue. -/
theorem inflight_append_discarded_witness :
    drainRun 2 [("a", ⟨0, false⟩)] [[("a", ⟨1, false⟩)]] .pending =
      some ([("a", ⟨0, false⟩)], settle .pending [("a", ⟨0, false⟩)]) :=
  (inflight_append_discarded "a" ⟨0, false⟩ ⟨1, false⟩ [] (by decide)).1

/-- C3: draining three distinct keys appended in order A, B, C with no
further appends executes the three bodies exactly in that order, once each,
the mapping empties, and the completion callback fires (the cycle promise is
fulfilled, which triggers the single fulfillment handler exactly once); in
general a no-append drain cycle over a mapping with distinct keys executes
exactly the entries of the mapping, oldest first, removing each processed
key, until the mapping is empty. -/
theorem drain_insertion_order (A B C : String) (ja jb jc : Job)
    (hAB : A ≠ B) (hAC : A ≠ C) (hBC : B ≠ C)
    (hfa : ja.fails = false) (hfb : jb.fails = false)
    (hfc : jc.fails = false) :
    (drainRun 4 [(A, ja), (B, jb), (C, jc)] [] .pending =
      some ([(A, ja), (B, jb), (C, jc)], .resolvedP) ∧
      callbackFires .resolvedP = true) ∧
    ∀ m : JobMap, keysNodup m →
      drainRun (m.length + 1) m [] .pending = some (m, settle .pending m) := by
  constructor
  · constructor
    · have hnd : keysNodup [(A, ja), (B, jb), (C, jc)] := by
        simp [keysNodup, hAB, hAC, hBC]
      rw [drainRun_no_appends _ hnd 4 (by simp) .pending]
      rw [settle_pending_eq]
      simp [hfa, hfb, hfc]
    · rfl
  · intro m h
    exact drainRun_no_appends m h _ (by omega) .pending

/-- Witness for the drain-order theorem at three concrete keys. -/
theorem drain_insertion_order_witness :
    drainRun 4 [("a", ⟨0, false⟩), ("b", ⟨1, false⟩), ("c", ⟨2, false⟩)] []
        .pending =
      some ([("a", ⟨0, false⟩), ("b", ⟨1, false⟩), ("c", ⟨2, false⟩)],
        .resolvedP) :=
  ((drain_insertion_order "a" "b" "c" ⟨0, false⟩ ⟨1, false⟩ ⟨2, false⟩
    (by decide) (by decide) (by decide) rfl rfl rfl).1).1

/-- C4: a throwing job body does not stop the drain loop — with a failing
job under key bk somewhere in the mapping, the cycle still executes every
entry of the mapping (in particular every job appended before the failure
and still pending when it happens), while the failure is captured as the
rejection of the cycle promise. -/
theorem drain_continues_after_failure (m1 m2 : JobMap) (bk : String)
    (bj : Job) (hnd : keysNodup (m1 ++ (bk, bj) :: m2))
    (hfail : bj.fails = true) :
    drainRun ((m1 ++ (bk, bj) :: m2).length + 1) (m1 ++ (bk, bj) :: m2) []
        .pending =
      some (m1 ++ (bk, bj) :: m2, settle .pending (m1 ++ (bk, bj) :: m2)) ∧
    settle .pending (m1 ++ (bk, bj) :: m2) = .rejectedP ∧
    ∀ p ∈ m2, p ∈ m1 ++ (bk, bj) :: m2 := by
  refine ⟨drainRun_no_appends _ hnd _ (by omega) _, ?_, ?_⟩
  · rw [settle_pending_eq]
    have hany : (m1 ++ (bk, bj) :: m2).any (fun p => p.2.fails) = true := by
      simp [List.any_append, List.any_cons, hfail]
    rw [if_pos hany]
  · intro p hp
    exact List.mem_append.mpr (Or.inr (List.mem_cons_of_mem _ hp))

/-- Witness for the failure-liveness theorem: a failing middle job, with a
job appended after it, still drains the whole mapping. -/
theorem drain_continues_after_failure_witness :
    drainRun 4 [("a", ⟨0, false⟩), ("b", ⟨1, true⟩), ("c", ⟨2, false⟩)] []
        .pending =
      some ([("a", ⟨0, false⟩), ("b", ⟨1, true⟩), ("c", ⟨2, false⟩)],
        settle .pending
          [("a", ⟨0, false⟩), ("b", ⟨1, true⟩), ("c", ⟨2, false⟩)]) :=
  (drain_continues_after_failure [("a", ⟨0, false⟩)] [("c", ⟨2, false⟩)] "b"
    ⟨1, true⟩ (by decide) rfl).1

/-- C5 as stated is false for cycles containing a throw: when a job body
throws, the catch branch rejects the cycle promise, the later `resolve()` is
then a no-op, and the single fulfillment handler `.then(onEmptyQueue)` never
runs — so in a cycle with a failing job the mapping empties and the loop
ends, yet the completion callback does not fire. -/
theorem callback_after_throw_cex :
    drainRun 2 [("a", ⟨0, true⟩)] [] .pending =
      some ([("a", ⟨0, true⟩)], .rejectedP) ∧
    callbackFires .rejectedP = false := by decide

/-- C5 amended: per drain cycle the completion callback fires at most once —
namely exactly once when no job body of the cycle threw, and not at all when
some body threw (the cycle promise is then rejected and the fulfillment
handler is skipped). -/
theorem callback_fires_iff_no_failure (m : JobMap) (hnd : keysNodup m) :
    drainRun (m.length + 1) m [] .pending = some (m, settle .pending m) ∧
    (callbackFires (settle .pending m) = true ↔
      ∀ p ∈ m, p.2.fails = false) := by
  refine ⟨drainRun_no_appends _ hnd _ (by omega) _, ?_⟩
  rw [settle_pending_eq]
  by_cases hany : m.any (fun p => p.2.fails) = true
  · rw [if_pos hany]
    rw [List.any_eq_true] at hany
    obtain ⟨p, hp, hf⟩ := hany
    simp only [callbackFires]
    constructor
    · intro hc
      cases hc
    · intro hall
      rw [hall p hp] at hf
      cases hf
  · rw [if_neg hany]
    simp only [callbackFires]
    constructor
    · intro _ p hp
      rw [← Bool.not_eq_true]
      intro hc
      exact hany (List.any_eq_true.mpr ⟨p, hp, hc⟩)
    · intro _
      rfl

/-- Witness for the callback theorem on a one-job cycle with no failure. -/
theorem callback_fires_iff_no_failure_witness :
    drainRun 2 [("a", ⟨0, false⟩)] [] .pending =
      some ([("a", ⟨0, false⟩)], settle .pending [("a", ⟨0, false⟩)]) :=
  (callback_fires_iff_no_failure [("a", ⟨0, false⟩)] (by decide)).1

/-- C6: if every attempt raises a transient (system / request-timeout)
fetch error or returns a 5xx status, `sendRawRequest` never returns a
response; it fails after exactly `numberOfRequestRetries = 20` attempts with
a fixed `sleepTimeout = 10000` ms backoff sleep between consecutive attempts
(19 sleeps); and when in addition every attempt is a 5xx response, the final
error carries the last status code and the attempt count. -/
theorem sendRawRequest_exhausts_attempts (att : Nat → AttemptOutcome)
    (h : ∀ n, 1 ≤ n → n ≤ numberOfRequestRetries →
      isTransientOrServerError (att n) = true) :
    (∀ s, (sendRawRequest att).1 ≠ .returned s) ∧
    (sendRawRequest att).2.1 = numberOfRequestRetries ∧
    (sendRawRequest att).2.2 =
      List.replicate (numberOfRequestRetries - 1) sleepTimeout ∧
    ((∀ n, 1 ≤ n → n ≤ numberOfRequestRetries →
        ∃ st, att n = .ok st ∧ 500 ≤ st) →
      ∃ st, att numberOfRequestRetries = .ok st ∧
        (sendRawRequest att).1 = .serverError st numberOfRequestRetries) := by
  obtain ⟨h1, h2, h3⟩ := sendLoop_all_transient att
    (numberOfRequestRetries - 1) 1 (by omega)
    (by norm_num [numberOfRequestRetries]) h
  refine ⟨h1, ?_, ?_, ?_⟩
  · show (sendLoop att 1).2.1 = numberOfRequestRetries
    rw [h2]
    norm_num [numberOfRequestRetries]
  · exact h3
  · intro hall
    exact sendLoop_all_5xx att (numberOfRequestRetries - 1) 1 (by omega)
      (by norm_num [numberOfRequestRetries]) hall

/-- Witness for the retry-exhaustion theorem: every attempt answering 500
makes the call fail after 20 attempts with the last status in the error. -/
theorem sendRawRequest_exhausts_attempts_witness :
    (sendRawRequest (fun _ => .ok 500)).2.1 = numberOfRequestRetries ∧
    (sendRawRequest (fun _ => .ok 500)).1 =
      .serverError 500 numberOfRequestRetries := by
  have h := sendRawRequest_exhausts_attempts (fun _ => .ok 500)
    (fun n hn1 hn2 => rfl)
  refine ⟨h.2.1, ?_⟩
  obtain ⟨st, hst, hres⟩ := h.2.2.2 (fun n hn1 hn2 => ⟨500, rfl, by norm_num⟩)
  cases hst
  exact hres

/-- C7: if the first N attempts (N < 20) return 5xx statuses and attempt
N+1 returns any status below 500 — any 2xx, but also any 4xx, which is
returned as-is and never retried — then `sendRawRequest` returns that
response after exactly N retries: N+1 attempts and N backoff sleeps. -/
theorem sendRawRequest_success_after_retries (att : Nat → AttemptOutcome)
    (N s : Nat) (hN : N < numberOfRequestRetries)
    (h5 : ∀ n, 1 ≤ n → n ≤ N → ∃ st, att n = .ok st ∧ 500 ≤ st)
    (hs : att (N + 1) = .ok s) (hlt : s < 500) :
    sendRawRequest att = (.returned s, N + 1, List.replicate N sleepTimeout) :=
  sendLoop_prefix_5xx att N s hN hs hlt N 1 (by omega) (by omega) h5

/-- Witness: a first-attempt 404 is returned immediately, with no retry and
no sleeps. -/
theorem sendRawRequest_success_after_retries_witness :
    sendRawRequest (fun _ => .ok 404) =
      (.returned 404, 1, List.replicate 0 sleepTimeout) :=
  sendRawRequest_success_after_retries (fun _ => .ok 404) 0 404
    (by norm_num [numberOfRequestRetries])
    (fun n hn1 hn2 => absurd (le_trans hn1 hn2) (by norm_num)) rfl
    (by norm_num)

/-- C8: response classification is a pure, deterministic function of the
status code alone, agreeing everywhere with the spec's classification: 401
maps to the authentication failure, 403 to the authorization failure, every
status in [200, 300) to success, and every other status to the generic
failure carrying the status code; being a function of the status, repeated
classification of the same status yields the same outcome. -/
theorem validateResponseStatus_pure_classification (status : Nat) :
    validateResponseStatus status = classifySpec status := by
  unfold validateResponseStatus classifySpec
  split_ifs <;> first | rfl | omega

/-- C9 as stated is false for the single-object variant: a decoded body
that is not an object in the spec's sense — an array, or null — passes the
check `typeof data !== 'object' && data.id === undefined`, because JS
`typeof` is `object` for arrays and for null; the call then succeeds instead
of failing with the malformed-payload error. -/
theorem single_shape_check_accepts_array_cex :
    isJsonObject (Json.arr []) = false ∧
    sendRequestWithSingleResponse 200 (Json.arr []) = .ok (Json.arr []) ∧
    isJsonObject Json.null = false ∧
    sendRequestWithSingleResponse 200 Json.null = .ok Json.null :=
  ⟨rfl, rfl, rfl, rfl⟩

/-- C9 amended: with a passing status validation, the single-object variant
fails with the malformed-payload error exactly when the decoded body's JS
typeof is not `object` (strings, numbers, booleans) — JSON arrays and null
pass the object-shape check — and the collection variant fails exactly when
the body is not an array; when status validation fails, both variants fail
with that status error (which is never the malformed-payload error): the
shape check runs only after status validation. -/
theorem response_shape_after_status (status : Nat) (body : Json) :
    (validateResponseStatus status = none →
      (sendRequestWithSingleResponse status body = .error .invalidResponse ↔
        jsTypeof body ≠ "object") ∧
      (sendRequestWithMultiResponse status body = .error .invalidResponse ↔
        isJsonArray body = false)) ∧
    (∀ e, validateResponseStatus status = some e →
      e ≠ .invalidResponse ∧
      sendRequestWithSingleResponse status body = .error e ∧
      sendRequestWithMultiResponse status body = .error e) := by
  constructor
  · intro hv
    constructor
    · rw [sendRequestWithSingleResponse_none status body hv]
      cases body <;> simp [jsTypeof, getId]
    · rw [sendRequestWithMultiResponse_none status body hv]
      cases body <;> simp [isJsonArray]
  · intro e hv
    refine ⟨?_, sendRequestWithSingleResponse_some status body e hv,
      sendRequestWithMultiResponse_some status body e hv⟩
    unfold validateResponseStatus at hv
    split_ifs at hv
    · cases hv
      simp
    · cases hv
      simp
    · cases hv
      simp

/-- Witness for the shape-check theorem: a string body is rejected by the
single-object variant after a 200, and a 404 fails with the status error. -/
theorem response_shape_after_status_witness :
    (sendRequestWithSingleResponse 200 (Json.str "x") =
        .error .invalidResponse ↔ jsTypeof (Json.str "x") ≠ "object") ∧
    sendRequestWithSingleResponse 404 (Json.arr []) =
      .error (.unexpectedStatus 404) :=
  ⟨((response_shape_after_status 200 (Json.str "x")).1 (by decide)).1,
    ((response_shape_after_status 404 (Json.arr [])).2 (.unexpectedStatus 404)
      (by decide)).2.1⟩

/-- C10: `sendRawRequest` never returns a response with a 5xx status — any
response it returns, rather than throwing, has status strictly below 500
(on exhausting attempts against 5xx it throws instead). -/
theorem sendRawRequest_never_returns_5xx (att : Nat → AttemptOutcome)
    (s : Nat) (h : (sendRawRequest att).1 = .returned s) : s < 500 :=
  sendLoop_returned_lt_500 att numberOfRequestRetries 1 s (by omega) h

/-- Witness: a first-attempt 200 response is returned and is below 500. -/
theorem sendRawRequest_never_returns_5xx_witness :
    (sendRawRequest (fun _ => .ok 200)).1 = .returned 200 ∧ (200 : Nat) < 500 :=
  ⟨by simp [sendRawRequest, sendLoop],
    sendRawRequest_never_returns_5xx (fun _ => .ok 200) 200
      (by simp [sendRawRequest, sendLoop])⟩
